import Mathlib

/-!
Verification of the email_proto repository core against its specification.

The development shallowly embeds the relevant parts of the Python source:
bytes are lists of Nat (each intended < 256), Python str values are Lean
String, fallible code returns Option or Except, and generator-based
protocol code is modelled as pure functions returning the sequence of
emitted events plus the successor state.
-/

/-! ## Line framing (base_proto.Protocol.receive, pop3_proto.Connection.receive)

The framer appends incoming bytes to a buffer, emits one line per LF found
(terminator included), keeps the unterminated residue buffered, and raises
ProtocolError when the residue reaches MAXLINE bytes.  splitCompleteAux
models the find-loop: cur is the reversed accumulator of the current
(unfinished) line, the result is the list of completed lines plus the
residue. -/

def splitCompleteAux (cur : List Nat) : List Nat → List (List Nat) × List Nat
  | [] => ([], cur.reverse)
  | b :: rest =>
    if b = 10 then
      let r := splitCompleteAux [] rest
      ((cur.reverse ++ [10]) :: r.1, r.2)
    else
      splitCompleteAux (b :: cur) rest

def splitComplete (s : List Nat) : List (List Nat) × List Nat :=
  splitCompleteAux [] s

/-- Errors the framing layer can raise: Closed (EOF on empty buffer) and
ProtocolError (maximum line length exceeded). -/
inductive RecvErr
  | closed
  | protocolError
deriving DecidableEq, Repr

/-- Result of one receive call: the lines handed to the line consumer, the
buffer left behind, and the exception raised at the end, if any. -/
structure RecvResult where
  lines : List (List Nat)
  buf : List Nat
  err : Option RecvErr
deriving DecidableEq, Repr

def MAXLINE : Nat := 8192

/-- Embeds base_proto.Protocol.receive (identical to
pop3_proto.Connection.receive): empty data means EOF, where a nonempty
buffer is delivered as one final line and an empty one raises Closed;
otherwise data is appended, every LF-terminated line is dispatched, the
buffer is trimmed to the residue, and ProtocolError is raised when the
residue reaches MAXLINE. -/
def receive (buf data : List Nat) : RecvResult :=
  if data = [] then
    if buf = [] then ⟨[], [], some RecvErr.closed⟩
    else ⟨[buf], [], none⟩
  else
    let s := splitCompleteAux [] (buf ++ data)
    if MAXLINE ≤ s.2.length then ⟨s.1, s.2, some RecvErr.protocolError⟩
    else ⟨s.1, s.2, none⟩

theorem splitCompleteAux_nil (cur : List Nat) :
    splitCompleteAux cur [] = ([], cur.reverse) := rfl

theorem splitCompleteAux_lf (cur : List Nat) (rest : List Nat) :
    splitCompleteAux cur (10 :: rest)
      = ((cur.reverse ++ [10]) :: (splitCompleteAux [] rest).1,
         (splitCompleteAux [] rest).2) := by
  simp [splitCompleteAux]

theorem splitCompleteAux_cons (cur : List Nat) (b : Nat) (rest : List Nat)
    (hb : b ≠ 10) :
    splitCompleteAux cur (b :: rest) = splitCompleteAux (b :: cur) rest := by
  simp [splitCompleteAux, hb]

/-- The dispatched lines followed by the residue reassemble the input. -/
theorem splitCompleteAux_join :
    ∀ (s cur : List Nat),
      (splitCompleteAux cur s).1.flatten ++ (splitCompleteAux cur s).2
        = cur.reverse ++ s
  | [], cur => by simp [splitCompleteAux_nil]
  | b :: rest, cur => by
    by_cases hb : b = 10
    · subst hb
      rw [splitCompleteAux_lf]
      have ih := splitCompleteAux_join rest []
      simp only [List.reverse_nil, List.nil_append] at ih
      simp only [List.flatten_cons, List.append_assoc, ih]
      simp
    · rw [splitCompleteAux_cons cur b rest hb]
      have ih := splitCompleteAux_join rest (b :: cur)
      rw [ih]
      simp

/-- Every dispatched line ends with the LF terminator. -/
theorem splitCompleteAux_ends_lf :
    ∀ (s cur : List Nat) (l : List Nat),
      l ∈ (splitCompleteAux cur s).1 → l.getLast? = some 10
  | [], cur, l => by simp [splitCompleteAux_nil]
  | b :: rest, cur, l => by
    by_cases hb : b = 10
    · subst hb
      rw [splitCompleteAux_lf]
      intro hl
      rcases List.mem_cons.mp hl with h | h
      · subst h
        simp
      · exact splitCompleteAux_ends_lf rest [] l h
    · rw [splitCompleteAux_cons cur b rest hb]
      exact splitCompleteAux_ends_lf rest (b :: cur) l

/-- The residue contains no LF (provided the accumulator has none). -/
theorem splitCompleteAux_residue_no_lf :
    ∀ (s cur : List Nat), 10 ∉ cur → 10 ∉ (splitCompleteAux cur s).2
  | [], cur, h => by
    rw [splitCompleteAux_nil]
    simpa using h
  | b :: rest, cur, h => by
    by_cases hb : b = 10
    · subst hb
      rw [splitCompleteAux_lf]
      exact splitCompleteAux_residue_no_lf rest [] (by simp)
    · rw [splitCompleteAux_cons cur b rest hb]
      refine splitCompleteAux_residue_no_lf rest (b :: cur) ?_
      intro hmem
      rcases List.mem_cons.mp hmem with h10 | h10
      · exact hb h10.symm
      · exact h h10

/-- Prepending LF-free bytes to the stream only extends the accumulator. -/
theorem splitCompleteAux_skip :
    ∀ (r : List Nat) (cur s : List Nat), 10 ∉ r →
      splitCompleteAux cur (r ++ s) = splitCompleteAux (r.reverse ++ cur) s
  | [], cur, s, _ => by simp
  | b :: rest, cur, s, h => by
    have hb : b ≠ 10 := by
      intro hb
      exact h (by simp [hb])
    have h2 : 10 ∉ rest := fun hm => h (List.mem_cons_of_mem _ hm)
    rw [List.cons_append, splitCompleteAux_cons cur b _ hb,
        splitCompleteAux_skip rest (b :: cur) s h2]
    simp

/-- Compositionality of the line splitter over stream concatenation. -/
theorem splitCompleteAux_append :
    ∀ (x : List Nat) (cur t : List Nat),
      splitCompleteAux cur (x ++ t)
        = ((splitCompleteAux cur x).1
             ++ (splitCompleteAux ((splitCompleteAux cur x).2).reverse t).1,
           (splitCompleteAux ((splitCompleteAux cur x).2).reverse t).2)
  | [], cur, t => by simp [splitCompleteAux_nil]
  | b :: rest, cur, t => by
    by_cases hb : b = 10
    · subst hb
      rw [List.cons_append, splitCompleteAux_lf, splitCompleteAux_lf]
      rw [splitCompleteAux_append rest [] t]
      simp
    · rw [List.cons_append, splitCompleteAux_cons cur b _ hb,
          splitCompleteAux_cons cur b rest hb]
      exact splitCompleteAux_append rest (b :: cur) t

/-- C3: if a receive call leaves an unterminated residue of MAXLINE bytes or
more, that call raises ProtocolError, every line it dispatched carries the
LF terminator, and the over-long unterminated data remains in the buffer in
full (lines and buffer partition the input), so none of it is dispatched. -/
theorem receive_overlong_raises (buf data : List Nat)
    (hdata : data ≠ [])
    (hlen : MAXLINE ≤ (splitComplete (buf ++ data)).2.length) :
    receive buf data
        = ⟨(splitComplete (buf ++ data)).1, (splitComplete (buf ++ data)).2,
           some RecvErr.protocolError⟩
      ∧ (∀ l ∈ (splitComplete (buf ++ data)).1, l.getLast? = some 10)
      ∧ (splitComplete (buf ++ data)).1.flatten
            ++ (splitComplete (buf ++ data)).2
          = buf ++ data := by
  refine ⟨?_, ?_, ?_⟩
  · rw [receive, if_neg hdata]
    simp only [splitComplete] at hlen ⊢
    simp [hlen]
  · intro l hl
    exact splitCompleteAux_ends_lf (buf ++ data) [] l hl
  · simpa using splitCompleteAux_join (buf ++ data) []

theorem splitCompleteAux_all_no_lf (s : List Nat) (cur : List Nat)
    (h : 10 ∉ s) : splitCompleteAux cur s = ([], cur.reverse ++ s) := by
  have h2 := splitCompleteAux_skip s cur [] h
  rw [List.append_nil] at h2
  rw [h2, splitCompleteAux_nil]
  simp

/-- Witness for receive_overlong_raises: 8192 bytes of the letter X with no
terminator raise the framing error. -/
theorem receive_overlong_raises_witness :
    (receive [] (List.replicate 8192 88)).err = some RecvErr.protocolError := by
  have h10 : (10 : Nat) ∉ List.replicate 8192 88 := by
    intro hm
    have := List.eq_of_mem_replicate hm
    exact absurd this (by decide)
  have hres : splitComplete ([] ++ List.replicate 8192 88)
      = ([], List.replicate 8192 88) := by
    rw [List.nil_append, splitComplete, splitCompleteAux_all_no_lf _ [] h10,
        List.reverse_nil, List.nil_append]
  have hne : List.replicate 8192 88 ≠ ([] : List Nat) := by
    intro hcon
    have hlen := congrArg List.length hcon
    rw [List.length_replicate] at hlen
    exact absurd hlen (by decide)
  have h := receive_overlong_raises [] (List.replicate 8192 88) hne
    (by rw [hres, List.length_replicate]; exact Nat.le_refl 8192)
  rw [h.1]

/-- C9: line framing is invariant under chunk boundaries.  Feeding a then b
produces the same dispatched lines and the same final buffer as feeding
a ++ b at once, provided neither run raises a framing error. -/
theorem receive_chunk_invariant (buf a b : List Nat)
    (ha : a ≠ []) (hb : b ≠ [])
    (h1 : (receive buf a).err = none)
    (h2 : (receive (receive buf a).buf b).err = none)
    (h3 : (receive buf (a ++ b)).err = none) :
    (receive buf a).lines ++ (receive (receive buf a).buf b).lines
        = (receive buf (a ++ b)).lines
      ∧ (receive (receive buf a).buf b).buf = (receive buf (a ++ b)).buf := by
  have hab : a ++ b ≠ [] := by
    intro h
    exact ha (List.append_eq_nil.mp h).1
  have hbuf1 : (receive buf a).buf = (splitCompleteAux [] (buf ++ a)).2 := by
    rw [receive, if_neg ha]
    by_cases hm : MAXLINE ≤ (splitCompleteAux [] (buf ++ a)).2.length <;>
      simp [hm]
  have hlines1 : (receive buf a).lines = (splitCompleteAux [] (buf ++ a)).1 := by
    rw [receive, if_neg ha]
    by_cases hm : MAXLINE ≤ (splitCompleteAux [] (buf ++ a)).2.length <;>
      simp [hm]
  set r1 := (splitCompleteAux [] (buf ++ a)).2 with hr1
  have hr1ne : r1 ++ b ≠ [] := by
    intro h
    exact hb (List.append_eq_nil.mp h).2
  have hbuf2 : (receive (receive buf a).buf b).buf
      = (splitCompleteAux [] (r1 ++ b)).2 := by
    rw [hbuf1, receive, if_neg hb]
    by_cases hm : MAXLINE ≤ (splitCompleteAux [] (r1 ++ b)).2.length <;>
      simp [hm]
  have hlines2 : (receive (receive buf a).buf b).lines
      = (splitCompleteAux [] (r1 ++ b)).1 := by
    rw [hbuf1, receive, if_neg hb]
    by_cases hm : MAXLINE ≤ (splitCompleteAux [] (r1 ++ b)).2.length <;>
      simp [hm]
  have hbuf3 : (receive buf (a ++ b)).buf
      = (splitCompleteAux [] (buf ++ (a ++ b))).2 := by
    rw [receive, if_neg hab]
    by_cases hm : MAXLINE ≤ (splitCompleteAux [] (buf ++ (a ++ b))).2.length <;>
      simp [hm]
  have hlines3 : (receive buf (a ++ b)).lines
      = (splitCompleteAux [] (buf ++ (a ++ b))).1 := by
    rw [receive, if_neg hab]
    by_cases hm : MAXLINE ≤ (splitCompleteAux [] (buf ++ (a ++ b))).2.length <;>
      simp [hm]
  have hno10 : (10 : Nat) ∉ r1 :=
    splitCompleteAux_residue_no_lf (buf ++ a) [] (by simp)
  have hsplit : splitCompleteAux [] (r1 ++ b) = splitCompleteAux r1.reverse b := by
    have := splitCompleteAux_skip r1 [] b hno10
    simpa using this
  have happ := splitCompleteAux_append (buf ++ a) [] b
  have hassoc : buf ++ (a ++ b) = (buf ++ a) ++ b := by simp
  constructor
  · rw [hlines1, hlines2, hlines3, hassoc, happ, hsplit]
  · rw [hbuf2, hbuf3, hassoc, happ, hsplit]

/-- Witness for receive_chunk_invariant on a concrete CRLF-split chunk pair. -/
theorem receive_chunk_invariant_witness :
    (receive [] [104, 105, 13]).lines
        ++ (receive (receive [] [104, 105, 13]).buf [10, 120]).lines
      = (receive [] ([104, 105, 13] ++ [10, 120])).lines := by
  have h := receive_chunk_invariant [] [104, 105, 13] [10, 120]
    (by decide) (by decide) (by decide) (by decide) (by decide)
  exact h.1

/-! ## SMTP DATA dot-stuffing

Client side: smtp_proto.DataRequest._client_protocol scans the payload for
every match of CR LF dot, emits the pending slice and the stitch
CR LF dot dot, then the tail when nonempty, then sends CR LF dot CR LF.
Server side: smtp_proto.ServerState_Data.receive_line ends the message on
the exact line dot CR LF and strips one leading dot from any other
collected line. -/

/-- Mirrors payload.replace of CR LF dot by CR LF dot dot: the non
overlapping left to right scan doubles the dot of every CR LF dot
occurrence, continuing after the matched three bytes. -/
def replaceCrlfDot : List Nat → List Nat
  | 13 :: 10 :: 46 :: rest => 13 :: 10 :: 46 :: 46 :: replaceCrlfDot rest
  | b :: rest => b :: replaceCrlfDot rest
  | [] => []

/-- Embeds the finditer loop of DataRequest._client_protocol: cur is the
reversed pending slice payload from last to the scan position; at each
CR LF dot match the pending chunk and the stitch are emitted as separate
SendDataEvent chunks, and at the end the tail is emitted when nonempty. -/
def stuffChunksAux (cur : List Nat) : List Nat → List (List Nat)
  | 13 :: 10 :: 46 :: rest =>
      cur.reverse :: [13, 10, 46, 46] :: stuffChunksAux [] rest
  | b :: rest => stuffChunksAux (b :: cur) rest
  | [] => if cur = [] then [] else [cur.reverse]

def dataChunks (payload : List Nat) : List (List Nat) :=
  stuffChunksAux [] payload

/-- The byte stream DataRequest._client_protocol puts on the wire after the
354 go-ahead: the stuffing chunks followed by CR LF dot CR LF.  The result
is none when a zero-length chunk would be emitted, because the
SendDataEvent constructor asserts its data is nonempty, which aborts the
protocol on such payloads. -/
def dataWire (payload : List Nat) : Option (List Nat) :=
  if [] ∈ dataChunks payload then none
  else some ((dataChunks payload).flatten ++ [13, 10, 46, 13, 10])

/-- The wire stream claim C2 predicts, written from the claim words (stuffed
payload, then CR LF only if the payload does not already end with CR LF,
then dot CR LF), to be compared against dataWire. -/
def c2ClaimedWire (payload : List Nat) : List Nat :=
  replaceCrlfDot payload
    ++ (if [13, 10].isSuffixOf payload then [] else [13, 10])
    ++ [46, 13, 10]

/-- Embeds the startswith dot branch of ServerState_Data.receive_line: a
collected line loses its leading dot byte. -/
def destuffLine (l : List Nat) : List Nat :=
  if l.head? = some 46 then l.tail else l

/-- Iterates smtp_proto.ServerState_Data.receive_line over the framed lines:
the exact line dot CR LF ends the message, returning the data lines
collected so far; every other line is collected after destuffLine; none
when no terminator line ever arrives. -/
def collectData : List (List Nat) → Option (List (List Nat))
  | [] => none
  | l :: rest =>
    if l = [46, 13, 10] then some []
    else (collectData rest).map (fun ds => destuffLine l :: ds)

/-- Concatenating the emitted chunks yields exactly the replace form. -/
theorem stuffChunksAux_flatten (p : List Nat) :
    ∀ cur : List Nat,
      (stuffChunksAux cur p).flatten = cur.reverse ++ replaceCrlfDot p := by
  induction p using replaceCrlfDot.induct with
  | case1 rest ih =>
    intro cur
    rw [stuffChunksAux, replaceCrlfDot]
    have h := ih []
    simp only [List.reverse_nil, List.nil_append] at h
    simp [h]
  | case2 b rest hneg ih =>
    intro cur
    rw [stuffChunksAux.eq_2 cur b rest hneg, replaceCrlfDot.eq_2 b rest hneg]
    rw [ih (b :: cur)]
    simp
  | case3 =>
    intro cur
    rw [replaceCrlfDot]
    by_cases hcur : cur = [] <;> simp [stuffChunksAux, hcur]

/-- C2 amended: whenever the client DATA protocol completes (no zero-length
chunk), the wire after the 354 go-ahead is the payload with every CR LF dot
replaced by CR LF dot dot, then CR LF unconditionally, then dot CR LF. -/
theorem dataWire_eq_replace (P w : List Nat) (hP : P ≠ [])
    (h : dataWire P = some w) :
    w = replaceCrlfDot P ++ [13, 10] ++ [46, 13, 10] := by
  unfold dataWire at h
  by_cases hmem : [] ∈ dataChunks P
  · rw [if_pos hmem] at h
    exact absurd h (by simp)
  · rw [if_neg hmem] at h
    have hw := (Option.some_injective _ h).symm
    have hfl := stuffChunksAux_flatten P []
    simp only [List.reverse_nil, List.nil_append] at hfl
    rw [hw, dataChunks, hfl]
    simp

/-- Witness for dataWire_eq_replace at the payload a CR LF. -/
theorem dataWire_eq_replace_witness :
    ([97, 13, 10, 13, 10, 46, 13, 10] : List Nat)
      = replaceCrlfDot [97, 13, 10] ++ [13, 10] ++ [46, 13, 10] :=
  dataWire_eq_replace [97, 13, 10] [97, 13, 10, 13, 10, 46, 13, 10]
    (by decide) (by decide)

/-- C2 counterexample: for the payload a CR LF, which already ends with
CR LF, the code still emits the extra CR LF before the terminator, so the
wire differs from the one the claim predicts. -/
theorem c2_counterexample :
    dataWire [97, 13, 10] = some [97, 13, 10, 13, 10, 46, 13, 10]
      ∧ c2ClaimedWire [97, 13, 10] = [97, 13, 10, 46, 13, 10]
      ∧ ([97, 13, 10, 13, 10, 46, 13, 10] : List Nat)
          ≠ [97, 13, 10, 46, 13, 10] := by
  decide

/-- C1 counterexample: for the one-byte payload dot, the client emits
dot CR LF dot CR LF, the server treats the very first line as the
terminator, and the recovered message is empty, which is not the payload
under any trailing CRLF normalization. -/
theorem c1_counterexample :
    dataWire [46] = some [46, 13, 10, 46, 13, 10]
      ∧ (collectData (splitComplete [46, 13, 10, 46, 13, 10]).1).map
            List.flatten = some []
      ∧ ([] : List Nat) ≠ [46]
      ∧ ([] : List Nat) ≠ [46] ++ [13, 10]
      ∧ ([13, 10] : List Nat) ≠ [46] := by
  decide

/-! ## Round trip of DATA stuffing

To reason about the server pipeline (line framing followed by
ServerState_Data.receive_line) we introduce a byte-level destuffing
automaton (dsRun at a line start, dsTail inside a line) and prove it equal
to the pipeline; the round trip is then an induction over the payload. -/

mutual

def dsRun : List Nat → Option (List Nat)
  | [] => none
  | 46 :: 13 :: 10 :: _ => some []
  | 46 :: rest => dsTail rest
  | 10 :: rest => (dsRun rest).map (fun t => 10 :: t)
  | b :: rest => (dsTail rest).map (fun t => b :: t)

def dsTail : List Nat → Option (List Nat)
  | [] => none
  | 10 :: rest => (dsRun rest).map (fun t => 10 :: t)
  | b :: rest => (dsTail rest).map (fun t => b :: t)

end

theorem destuffLine_append (l m : List Nat) (hl : l ≠ []) :
    destuffLine (l ++ m) = destuffLine l ++ m := by
  rcases l with _ | ⟨x, xs⟩
  · exact absurd rfl hl
  · by_cases hx : x = 46 <;> simp [destuffLine, hx]

theorem append_singleton_eq_single (l : List Nat) (b c : Nat)
    (h : l ++ [b] = [c]) : l = [] ∧ b = c := by
  rcases l with _ | ⟨x, xs⟩
  · simpa using h
  · have hlen := congrArg List.length h
    simp at hlen

theorem append_singleton_eq_pair (l : List Nat) (b c d : Nat)
    (h : l ++ [b] = [c, d]) : l = [c] ∧ b = d := by
  rcases l with _ | ⟨x, xs⟩
  · simp at h
  · rcases xs with _ | ⟨y, ys⟩
    · simp at h
      exact ⟨by simp [h.1], h.2⟩
    · have hlen := congrArg List.length h
      simp at hlen

/-- The byte automaton computes exactly what the pipeline made of the line
framer and iterated ServerState_Data.receive_line computes. -/
theorem pipeAux :
    ∀ (n : Nat) (w : List Nat), w.length ≤ n →
      ((collectData (splitComplete w).1).map List.flatten = dsRun w)
      ∧ (∀ cur : List Nat, cur ≠ [] →
          (cur.reverse = [46] → ∀ z, w ≠ 13 :: 10 :: z) →
          (cur.reverse = [46, 13] → ∀ z, w ≠ 10 :: z) →
          (collectData (splitCompleteAux cur w).1).map List.flatten
            = (dsTail w).map (fun t => destuffLine cur.reverse ++ t))
  | n, [], _ => by
    constructor
    · simp [splitComplete, splitCompleteAux_nil, collectData, dsRun]
    · intro cur hcur _ _
      simp [splitCompleteAux_nil, collectData, dsTail]
  | 0, b :: rest, h => by
    exact absurd h (by simp)
  | Nat.succ n, b :: rest, h => by
    have hlen : rest.length ≤ n := by
      simp at h
      omega
    obtain ⟨ih1, ih2⟩ := pipeAux n rest hlen
    constructor
    · by_cases hb46 : b = 46
      · subst hb46
        by_cases hterm : ∃ z, rest = 13 :: 10 :: z
        · obtain ⟨z, hz⟩ := hterm
          subst hz
          rw [dsRun.eq_2]
          rw [splitComplete, splitCompleteAux_cons _ _ _ (by decide),
              splitCompleteAux_cons _ _ _ (by decide), splitCompleteAux_lf]
          simp [collectData]
        · have hnrest : ∀ z, rest ≠ 13 :: 10 :: z :=
            fun z hz => hterm ⟨z, hz⟩
          rw [dsRun.eq_3 rest (fun tail htail => hnrest tail htail)]
          rw [splitComplete, splitCompleteAux_cons _ _ _ (by decide)]
          have h2 := ih2 [46] (by simp)
            (fun _ => hnrest)
            (fun hcon => absurd hcon (by decide))
          rw [h2]
          cases dsTail rest <;> simp [destuffLine]
      · by_cases hb10 : b = 10
        · subst hb10
          rw [dsRun.eq_4]
          rw [splitComplete, splitCompleteAux_lf]
          simp only [List.reverse_nil, List.nil_append]
          have hne : ([10] : List Nat) ≠ [46, 13, 10] := by decide
          simp only [collectData, if_neg hne]
          rw [← ih1]
          simp only [splitComplete]
          cases collectData (splitCompleteAux [] rest).1 <;>
            simp [destuffLine]
        · rw [dsRun.eq_5 b rest (fun tail hb _ => hb46 hb)
            (fun hb => hb46 hb) (fun hb => hb10 hb)]
          rw [splitComplete, splitCompleteAux_cons _ _ _ hb10]
          have h2 := ih2 [b] (by simp)
            (fun hcon => absurd (by simpa using hcon) hb46)
            (fun hcon => absurd (congrArg List.length hcon) (by simp))
          rw [h2]
          cases dsTail rest <;> simp [destuffLine, hb46]
    · intro cur hcur pr1 pr2
      by_cases hb10 : b = 10
      · subst hb10
        rw [splitCompleteAux_lf]
        have hfl : cur.reverse ++ [10] ≠ [46, 13, 10] := by
          intro hcon
          have hcon2 : cur.reverse ++ [10] = [46, 13] ++ [10] := by
            simpa using hcon
          have hc := List.append_cancel_right hcon2
          exact pr2 hc rest rfl
        simp only [collectData, if_neg hfl]
        rw [destuffLine_append cur.reverse [10]
          (by simp [hcur])]
        rw [dsTail.eq_2, ← ih1]
        simp only [splitComplete]
        cases collectData (splitCompleteAux [] rest).1 <;> simp
      · rw [splitCompleteAux_cons _ _ _ hb10]
        have pr1n : (b :: cur).reverse = [46] → ∀ z, rest ≠ 13 :: 10 :: z := by
          intro hcon
          rw [List.reverse_cons] at hcon
          obtain ⟨hc1, -⟩ := append_singleton_eq_single _ _ _ hcon
          exact absurd (by simpa using congrArg List.reverse hc1) hcur
        have pr2n : (b :: cur).reverse = [46, 13] → ∀ z, rest ≠ 10 :: z := by
          intro hcon z hz
          rw [List.reverse_cons] at hcon
          obtain ⟨hc1, hc2⟩ := append_singleton_eq_pair _ _ _ _ hcon
          subst hc2
          subst hz
          exact pr1 hc1 z rfl
        have h2 := ih2 (b :: cur) (by simp) pr1n pr2n
        rw [h2, dsTail.eq_3 b rest (fun hb => hb10 hb)]
        rw [List.reverse_cons, destuffLine_append cur.reverse [b]
          (by simp [hcur])]
        cases dsTail rest <;> simp

/-- Side condition for the round trip: every LF that is immediately
followed by a dot is part of a CRLF (no bare LF directly before a dot), so
that every dot at a line start gets stuffed by the CR LF dot scan. -/
def okLfDot : List Nat → Bool
  | 13 :: 10 :: 46 :: rest => okLfDot rest
  | 10 :: 46 :: _ => false
  | _ :: rest => okLfDot rest
  | [] => true

/-- Core round-trip induction: destuffing the stuffed payload followed by
the terminator recovers the payload plus one CRLF, both from mid-line mode
and, when the payload does not begin with a dot, from line-start mode. -/
theorem roundTripCore (P : List Nat) (hok : okLfDot P = true) :
    dsTail (replaceCrlfDot P ++ [13, 10, 46, 13, 10]) = some (P ++ [13, 10])
      ∧ ((∀ z, P ≠ 46 :: z) →
          dsRun (replaceCrlfDot P ++ [13, 10, 46, 13, 10])
            = some (P ++ [13, 10])) := by
  revert hok
  induction P using replaceCrlfDot.induct with
  | case1 rest ih =>
    intro hok
    have hokr : okLfDot rest = true := by
      have heq : okLfDot (13 :: 10 :: 46 :: rest) = okLfDot rest := rfl
      rw [heq] at hok
      exact hok
    obtain ⟨ihT, -⟩ := ih hokr
    have hstep :
        dsTail (10 :: 46 :: 46 :: (replaceCrlfDot rest ++ [13, 10, 46, 13, 10]))
          = some (10 :: 46 :: (rest ++ [13, 10])) := by
      rw [dsTail.eq_2]
      rw [dsRun.eq_3 (46 :: (replaceCrlfDot rest ++ [13, 10, 46, 13, 10]))
        (fun tail ht => by simp at ht)]
      rw [dsTail.eq_3 46 _ (fun hh => by simp at hh)]
      rw [ihT]
      rfl
    constructor
    · rw [replaceCrlfDot, List.cons_append, List.cons_append, List.cons_append,
          List.cons_append]
      rw [dsTail.eq_3 13 _ (fun hh => by simp at hh)]
      rw [hstep]
      rfl
    · intro _
      rw [replaceCrlfDot, List.cons_append, List.cons_append, List.cons_append,
          List.cons_append]
      rw [dsRun.eq_5 13 _ (fun tail hh _ => by simp at hh)
        (fun hh => by simp at hh) (fun hh => by simp at hh)]
      rw [hstep]
      rfl
  | case2 b rest hneg ih =>
    intro hok
    rw [replaceCrlfDot.eq_2 b rest hneg]
    by_cases hb10 : b = 10
    · subst hb10
      have hnodot : ∀ z, rest ≠ 46 :: z := by
        intro z hz
        subst hz
        have hfalse : okLfDot (10 :: 46 :: z) = false := rfl
        rw [hfalse] at hok
        exact absurd hok (by decide)
      have hokr : okLfDot rest = true := by
        rw [okLfDot.eq_3 10 rest (fun r h1 _ => absurd h1 (by decide))
          (fun tail _ h2 => hnodot tail h2)] at hok
        exact hok
      obtain ⟨-, ihR⟩ := ih hokr
      have hrun := ihR hnodot
      constructor
      · rw [List.cons_append, dsTail.eq_2, hrun]
        rfl
      · intro _
        rw [List.cons_append, dsRun.eq_4, hrun]
        rfl
    · have hokr : okLfDot rest = true := by
        rw [okLfDot.eq_3 b rest (fun r h1 h2 => hneg r h1 h2)
          (fun tail h1 _ => hb10 h1)] at hok
        exact hok
      obtain ⟨ihT, -⟩ := ih hokr
      constructor
      · rw [List.cons_append, dsTail.eq_3 b _ (fun hh => hb10 hh), ihT]
        rfl
      · intro hhead
        have hb46 : b ≠ 46 := by
          intro hh
          exact hhead rest (by rw [hh])
        rw [List.cons_append, dsRun.eq_5 b _ (fun tail hh _ => hb46 hh)
          (fun hh => hb46 hh) (fun hh => hb10 hh), ihT]
        rfl
  | case3 =>
    intro _
    constructor
    · decide
    · intro _
      decide

/-- C1 amended: for a payload that does not begin with a dot, in which
every LF followed by a dot is preceded by CR, and for which the client
DATA protocol completes, the server pipeline (framing plus
ServerState_Data) terminates on the final dot line and the collected
de-stuffed lines concatenate to the payload followed by exactly one CRLF
(the trailing CRLF normalization). -/
theorem dataRoundTrip (P w : List Nat) (hP : P ≠ [])
    (hhead : ∀ z, P ≠ 46 :: z) (hok : okLfDot P = true)
    (hwire : dataWire P = some w) :
    (collectData (splitComplete w).1).map List.flatten
      = some (P ++ [13, 10]) := by
  have hw := dataWire_eq_replace P w hP hwire
  have hw2 : w = replaceCrlfDot P ++ [13, 10, 46, 13, 10] := by
    rw [hw]
    simp
  obtain ⟨h1, -⟩ := pipeAux w.length w (Nat.le_refl _)
  rw [h1, hw2]
  exact (roundTripCore P hok).2 hhead

/-- Witness for dataRoundTrip on the payload a CR LF dot b. -/
theorem dataRoundTrip_witness :
    (collectData (splitComplete
          [97, 13, 10, 46, 46, 98, 13, 10, 46, 13, 10]).1).map List.flatten
      = some ([97, 13, 10, 46, 98] ++ [13, 10]) :=
  dataRoundTrip [97, 13, 10, 46, 98]
    [97, 13, 10, 46, 46, 98, 13, 10, 46, 13, 10]
    (by decide) (fun z h => by simp at h) (by decide) (by decide)

/-! ## SMTP Response.parse (smtp_proto.Response.parse)

The parser takes int of the first three bytes, asserts 200 to 599, takes
the fourth byte as the separator (space for final, dash for intermediate),
decodes the remainder as strict US-ASCII and right-strips it with the
Python str rstrip; any failure raises Closed. -/

def isDigitByte (b : Nat) : Bool := 48 ≤ b && b ≤ 57

def asciiByte (b : Nat) : Bool := b < 128

/-- The ASCII characters Python str.rstrip removes: exactly those with
isspace true, namely 9 to 13 (TAB LF VT FF CR), 28 to 31 (FS GS RS US)
and 32 (space). -/
def pyWhitespace (b : Nat) : Bool :=
  b = 32 || (9 ≤ b && b ≤ 13) || (28 ≤ b && b ≤ 31)

/-- Python str.rstrip on ASCII text: drop all trailing whitespace. -/
def rstripBytes (l : List Nat) : List Nat :=
  (l.reverse.dropWhile pyWhitespace).reverse

/-- The text the claim predicts: only trailing CR and LF stripped. -/
def crlfStrippedText (l : List Nat) : List Nat :=
  (l.reverse.dropWhile (fun b => b = 13 || b = 10)).reverse

inductive ParsedResponse
  | intermediate (code : Nat) (text : List Nat)
  | success (code : Nat) (text : List Nat)
  | error (code : Nat) (text : List Nat)
deriving DecidableEq, Repr

/-- Embeds smtp_proto.Response.parse; the error value models raising
Closed.  The int call on the first three bytes combined with the range
assert succeeds with a value in 200 to 599 exactly when the three bytes
are plain ASCII digits: every other int-parsable three-byte form (a sign,
leading or trailing space, or an underscore between digits) yields a value
of at most 99, failing the range assert, so the Closed outcome agrees.
The strict US-ASCII decode of the remainder fails inside the same try
block on any byte above 127, which likewise raises Closed. -/
def responseParse (line : List Nat) : Except Unit ParsedResponse :=
  match line with
  | d1 :: d2 :: d3 :: rest =>
    if isDigitByte d1 && isDigitByte d2 && isDigitByte d3 then
      let code := (d1 - 48) * 100 + (d2 - 48) * 10 + (d3 - 48)
      if 200 ≤ code ∧ code ≤ 599 then
        if (rest.drop 1).all asciiByte then
          let text := rstripBytes (rest.drop 1)
          if rest.take 1 = [45] then
            Except.ok (ParsedResponse.intermediate code text)
          else if rest.take 1 = [32] then
            if code < 400 then Except.ok (ParsedResponse.success code text)
            else Except.ok (ParsedResponse.error code text)
          else Except.error ()
        else Except.error ()
      else Except.error ()
    else Except.error ()
  | _ => Except.error ()

/-- The parse behaviour the amended claim describes, written independently
from the claim words: three ASCII digit bytes forming a code in 200 to
599, a fourth byte that is a dash (intermediate) or a space (success below
400, error from 400 on), a pure ASCII remainder stored right-stripped of
all trailing whitespace, and Closed for every other input. -/
def c4SpecParse (line : List Nat) : Except Unit ParsedResponse :=
  let digits := line.take 3
  let sepB := (line.drop 3).take 1
  let restT := line.drop 4
  if digits.length = 3 ∧ digits.all isDigitByte then
    let code := digits.foldl (fun a b => a * 10 + (b - 48)) 0
    if 200 ≤ code ∧ code ≤ 599 ∧ restT.all asciiByte then
      if sepB = [45] then
        Except.ok (ParsedResponse.intermediate code (rstripBytes restT))
      else if sepB = [32] ∧ code < 400 then
        Except.ok (ParsedResponse.success code (rstripBytes restT))
      else if sepB = [32] then
        Except.ok (ParsedResponse.error code (rstripBytes restT))
      else Except.error ()
    else Except.error ()
  else Except.error ()

/-- C4 amended: Response.parse behaves exactly as c4SpecParse describes:
intermediate for dash, success and error split at 400 for space, the
stored text right-stripped of all trailing whitespace (not only CR and
LF), and Closed for every other input, including a non-ASCII remainder. -/
theorem responseParse_characterization (line : List Nat) :
    responseParse line = c4SpecParse line := by
  rcases line with _ | ⟨d1, l1⟩
  · rfl
  rcases l1 with _ | ⟨d2, l2⟩
  · simp [responseParse, c4SpecParse]
  rcases l2 with _ | ⟨d3, l3⟩
  · simp [responseParse, c4SpecParse]
  simp only [responseParse, c4SpecParse]
  have htake : (d1 :: d2 :: d3 :: l3).take 3 = [d1, d2, d3] := rfl
  have hdrop3 : (d1 :: d2 :: d3 :: l3).drop 3 = l3 := rfl
  have hdrop4 : (d1 :: d2 :: d3 :: l3).drop 4 = l3.drop 1 := rfl
  rw [htake, hdrop3, hdrop4]
  have hcode : [d1, d2, d3].foldl (fun a b => a * 10 + (b - 48)) 0
      = (d1 - 48) * 100 + (d2 - 48) * 10 + (d3 - 48) := by
    simp [List.foldl]
    ring
  rw [hcode]
  set c := (d1 - 48) * 100 + (d2 - 48) * 10 + (d3 - 48) with hc
  by_cases hd : (isDigitByte d1 && isDigitByte d2 && isDigitByte d3) = true
  · have hd2 : [d1, d2, d3].all isDigitByte = true := by
      simp only [List.all_cons, List.all_nil, Bool.and_true, ← Bool.and_assoc]
      exact hd
    by_cases h200 : 200 ≤ c
    · by_cases h599 : c ≤ 599
      · by_cases ha : ∀ x ∈ l3.tail, asciiByte x = true
        · by_cases h45 : l3.take 1 = [45]
          · simp [hd, hd2, h200, h599, ha, h45]
          · by_cases h32 : l3.take 1 = [32]
            · by_cases h400 : c < 400
              · simp [hd, hd2, h200, h599, ha, h45, h32, h400]
              · simp [hd, hd2, h200, h599, ha, h45, h32, h400]
            · simp [hd, hd2, h200, h599, ha, h45, h32]
        · simp [hd, hd2, h200, h599, ha]
      · simp [hd, hd2, h200, h599]
    · simp [hd, hd2, h200]
  · have hd2 : ¬([d1, d2, d3].all isDigitByte = true) := by
      simp only [List.all_cons, List.all_nil, Bool.and_true, ← Bool.and_assoc]
      exact hd
    simp [hd, hd2]

/-- C4 counterexample: on the line 250 space OK space CR LF the stored text
is OK with the trailing space stripped as well, not only CR and LF as the
claim states. -/
theorem responseParse_counterexample :
    responseParse [50, 53, 48, 32, 79, 75, 32, 13, 10]
        = Except.ok (ParsedResponse.success 250 [79, 75])
      ∧ crlfStrippedText [79, 75, 32, 13, 10] = [79, 75, 32]
      ∧ ([79, 75] : List Nat) ≠ [79, 75, 32] :=
  ⟨rfl, rfl, by decide⟩

/-! ## SMTP server engine (draft smtp_proto.py)

State and event model for the state-machine SMTP server in smtp_proto.py:
ServerState_Untrusted, ServerState_Auth (holding the pending mechanism
plugin), ServerState_Trusted and ServerState_Data, plus the Server object
fields.  Replies are kept structured: reply code text stands for the
SendDataEvent carrying code, a space, the text and CRLF. -/

inductive AuthMech
  | plain
  | login
deriving DecidableEq, Repr

inductive SmtpStateTag
  | untrusted
  | authPending (m : AuthMech) (loginUid : Option String)
  | trusted
  | dataMode
deriving DecidableEq, Repr

structure SmtpServer where
  state : SmtpStateTag
  client_hostname : String
  hostname : String
  pedantic : Bool
  mail_from : String
  rcpt_to : List String
  data : List (List Nat)
deriving DecidableEq, Repr

inductive SmtpEvt
  | reply (code : Int) (text : String)
  | startTlsRequested
  | startTlsBegin
  | authEvt (uid : String) (pwd : String)
  | mailFromEvt (addr : String)
deriving DecidableEq, Repr

/-- The host decision on an AcceptRejectEvent: accept, or reject with the
optional override code and message. -/
inductive HostDecision
  | accept
  | reject (code : Option Int) (message : Option String)
deriving DecidableEq, Repr

/-- Mirrors the regular expression r-eol search: CR or LF occurs in s. -/
def hasEol (s : String) : Bool :=
  s.data.any (fun ch => ch.toNat = 13 || ch.toNat = 10)

/-- Embeds smtp_proto.AcceptRejectEvent.reject: acceptance becomes false;
the code is replaced only when the override is within 400 to 599, the
message only when it is free of CR and LF; invalid overrides are logged
and the defaults kept.  (The isinstance guards of the source cannot fail
in this typed model.) -/
def rejectResolve (error_code : Int) (error_message : String)
    (code : Option Int) (message : Option String) : Bool × Int × String :=
  let c := match code with
    | none => error_code
    | some c0 => if c0 < 400 ∨ 599 < c0 then error_code else c0
  let m := match message with
    | none => error_message
    | some m0 => if hasEol m0 then error_message else m0
  (false, c, m)

/-- Resolution of an AcceptRejectEvent with the given class defaults:
accept installs the success code and message, reject goes through
rejectResolve. -/
def resolveAcceptReject (success_code : Int) (success_message : String)
    (error_code : Int) (error_message : String) :
    HostDecision → Bool × Int × String
  | HostDecision.accept => (true, success_code, success_message)
  | HostDecision.reject c m => rejectResolve error_code error_message c m

/-- Fresh smtp_proto.Server: Untrusted state, empty client_hostname,
pedantic default true, empty mail session (reset). -/
def smtpInit (hostname : String) : SmtpServer :=
  ⟨SmtpStateTag.untrusted, "", hostname, true, "", [], []⟩

/-- Embeds ServerState.on_HELO: a repeated HELO is refused with 503 when
pedantic, otherwise client_hostname is recorded and 250 returned. -/
def on_HELO (srv : SmtpServer) (textstring : String) :
    SmtpServer × List SmtpEvt :=
  if srv.client_hostname ≠ "" ∧ srv.pedantic = true then
    (srv, [SmtpEvt.reply 503 "you already said HELO"])
  else
    let srv2 := { srv with client_hostname := textstring }
    (srv2,
     [SmtpEvt.reply 250 (srv2.hostname ++ " greets " ++ srv2.client_hostname)])

/-- Embeds smtp_proto.Server.on_starttls: yield StartTlsRequestEvent (with
defaults 220 success, 454 error); on rejection reply with the resolved
code and message; on acceptance yield StartTlsBeginEvent.  The draft
mutates no server field here. -/
def on_starttls (srv : SmtpServer) (d : HostDecision) :
    SmtpServer × List SmtpEvt :=
  let r := resolveAcceptReject 220 "Go ahead, make my day"
    454 "TLS not available at the moment" d
  if r.1 = true then
    (srv, [SmtpEvt.startTlsRequested, SmtpEvt.startTlsBegin])
  else
    (srv, [SmtpEvt.startTlsRequested, SmtpEvt.reply r.2.1 r.2.2])

/-- Embeds ServerState.on_QUIT of smtp_proto.py (identical in smtp.py): a
single 250 OK reply followed by raising Closed (the returned flag). -/
def on_QUIT (srv : SmtpServer) : List SmtpEvt × Bool :=
  ([SmtpEvt.reply 250 "OK"], true)

/-- Embeds smtp_proto.Server.on_mail_from: yield MailFromEvent (defaults
250 OK, 550 address rejected); record mail_from only when accepted; emit
exactly one single-line reply with the resolved code and message. -/
def on_mail_from (srv : SmtpServer) (mail_from : String) (d : HostDecision) :
    SmtpServer × List SmtpEvt :=
  let r := resolveAcceptReject 250 "OK" 550 "address rejected" d
  let srv2 := if r.1 = true then { srv with mail_from := mail_from } else srv
  (srv2, [SmtpEvt.mailFromEvt mail_from, SmtpEvt.reply r.2.1 r.2.2])

def mailFromResolve (d : HostDecision) : Bool × Int × String :=
  resolveAcceptReject 250 "OK" 550 "address rejected" d

/-! ## AUTH plugins of the draft smtp_proto.py

The registry holds PLAIN and LOGIN.  Outcome of a plugin first_line call:
an AuthPluginStatus_Reply (code, message) or AuthPluginStatus_Credentials
(uid, pwd).  Base64 helpers mirror b64_encode and base64.b64decode (the
decoder discards bytes outside the alphabet, as b64decode does without
validate, and fails on bad padding). -/

def b64CharOfVal (v : Nat) : Nat :=
  if v < 26 then 65 + v
  else if v < 52 then 97 + (v - 26)
  else if v < 62 then 48 + (v - 52)
  else if v = 62 then 43
  else 47

def b64EncodeBytes : List Nat → List Nat
  | [] => []
  | [b1] => [b64CharOfVal (b1 / 4), b64CharOfVal (b1 % 4 * 16), 61, 61]
  | [b1, b2] =>
      [b64CharOfVal (b1 / 4), b64CharOfVal (b1 % 4 * 16 + b2 / 16),
       b64CharOfVal (b2 % 16 * 4), 61]
  | b1 :: b2 :: b3 :: rest =>
      b64CharOfVal (b1 / 4)
        :: b64CharOfVal (b1 % 4 * 16 + b2 / 16)
        :: b64CharOfVal (b2 % 16 * 4 + b3 / 64)
        :: b64CharOfVal (b3 % 64)
        :: b64EncodeBytes rest

/-- smtp_proto.b64_encode on US-ASCII text (its only use sites pass pure
ASCII constants and credentials). -/
def b64EncodeStr (s : String) : String :=
  String.mk ((b64EncodeBytes (s.data.map Char.toNat)).map Char.ofNat)

def b64ValOfChar (c : Nat) : Option Nat :=
  if 65 ≤ c ∧ c ≤ 90 then some (c - 65)
  else if 97 ≤ c ∧ c ≤ 122 then some (c - 97 + 26)
  else if 48 ≤ c ∧ c ≤ 57 then some (c - 48 + 52)
  else if c = 43 then some 62
  else if c = 47 then some 63
  else none

def b64DecodeCore : List Nat → Option (List Nat)
  | [] => some []
  | c1 :: c2 :: c3 :: c4 :: rest => do
      let v1 ← b64ValOfChar c1
      let v2 ← b64ValOfChar c2
      if c3 = 61 ∧ c4 = 61 ∧ rest = [] then
        some [v1 * 4 + v2 / 16]
      else do
        let v3 ← b64ValOfChar c3
        if c4 = 61 ∧ rest = [] then
          some [v1 * 4 + v2 / 16, v2 % 16 * 16 + v3 / 4]
        else do
          let v4 ← b64ValOfChar c4
          let tail ← b64DecodeCore rest
          some ((v1 * 4 + v2 / 16) :: (v2 % 16 * 16 + v3 / 4)
            :: (v3 % 4 * 64 + v4) :: tail)
  | _ => none

/-- base64.b64decode of a str followed by the strict US-ASCII b2s decode;
none models the exceptions either step can raise.  The decoder is
conservative about one edge: it rejects input that continues after a
padded group, where the underlying binascii routine would stop decoding
at the padding; no theorem below evaluates that branch. -/
def b64DecodeToAscii (s : String) : Option String := do
  let filtered := (s.data.map Char.toNat).filter
    (fun c => (b64ValOfChar c).isSome || c = 61)
  let bytes ← b64DecodeCore filtered
  if bytes.all asciiByte then
    some (String.mk (bytes.map Char.ofNat))
  else
    none

/-- Python split on the NUL character. -/
def splitOnZeroAux (acc : List Char) : List Char → List String
  | [] => [String.mk acc.reverse]
  | c :: rest =>
    if c.toNat = 0 then String.mk acc.reverse :: splitOnZeroAux [] rest
    else splitOnZeroAux (c :: acc) rest

def splitOnZero (s : String) : List String :=
  splitOnZeroAux [] s.data

/-- Outcome of an AuthPlugin first_line call. -/
inductive AuthFirst
  | reply (code : Int) (message : String)
  | credentials (uid : String) (pwd : String)
deriving DecidableEq, Repr

/-- Embeds AuthPlugin_Plain.receive_line: base64-decode the blob, split on
NUL expecting exactly three fields, otherwise 501. -/
def plainDecode (line : String) : AuthFirst :=
  match b64DecodeToAscii line with
  | some decoded =>
    match splitOnZero decoded with
    | [_, uid, pwd] => AuthFirst.credentials uid pwd
    | _ => AuthFirst.reply 501 "malformed auth input RFC4616#2"
  | none => AuthFirst.reply 501 "malformed auth input RFC4616#2"

/-- Embeds AuthPlugin_Plain.first_line: inline credentials are decoded at
once, an empty argument draws the empty 334 challenge. -/
def plainFirstLine (extra : String) : AuthFirst :=
  if extra = "" then AuthFirst.reply 334 "" else plainDecode extra

/-- Embeds AuthPlugin_Login.first_line: always the 334 challenge carrying
base64 of the string Username and colon. -/
def loginFirstLine (_extra : String) : AuthFirst :=
  AuthFirst.reply 334 (b64EncodeStr "Username:")

/-- Embeds smtp_proto.Server.on_authenticate: yield AuthEvent (defaults
235 success, 535 Authentication failed); install Trusted on acceptance,
Untrusted otherwise; emit the resolved single-line reply. -/
def on_authenticate (srv : SmtpServer) (uid pwd : String) (d : HostDecision) :
    SmtpServer × List SmtpEvt :=
  let r := resolveAcceptReject 235 "Authentication successful"
    535 "Authentication failed" d
  let srv2 :=
    if r.1 = true then { srv with state := SmtpStateTag.trusted }
    else { srv with state := SmtpStateTag.untrusted }
  (srv2, [SmtpEvt.authEvt uid pwd, SmtpEvt.reply r.2.1 r.2.2])

/-- Embeds AuthPluginStatus resolution: a Reply with code 400 or above
drops the session back to Untrusted and is emitted as the reply; a
Credentials outcome goes through on_authenticate with the host decision. -/
def resolveStatus (srv : SmtpServer) (st : AuthFirst) (d : HostDecision) :
    SmtpServer × List SmtpEvt :=
  match st with
  | AuthFirst.reply code message =>
      let srv2 :=
        if 400 ≤ code then { srv with state := SmtpStateTag.untrusted }
        else srv
      (srv2, [SmtpEvt.reply code message])
  | AuthFirst.credentials uid pwd => on_authenticate srv uid pwd d

/-- Python str split on the first space only (split with maxsplit one). -/
def splitOnceSpaceAux (acc : List Char) : List Char → List Char × Option (List Char)
  | [] => (acc.reverse, none)
  | c :: rest =>
    if c.toNat = 32 then (acc.reverse, some rest)
    else splitOnceSpaceAux (c :: acc) rest

def pySplitOnceSpace (s : String) : String × Option String :=
  let r := splitOnceSpaceAux [] s.data
  (String.mk r.1, r.2.map String.mk)

/-- Python str.upper on ASCII text. -/
def upperStr (s : String) : String :=
  String.mk (s.data.map Char.toUpper)

/-- Embeds ServerState_Untrusted.on_AUTH of smtp_proto.py: split the
mechanism from the argument, upper-case it, look it up among the
registered plugins PLAIN and LOGIN (504 when unknown), install
ServerState_Auth with the plugin, call its first_line on the remaining
argument and resolve the returned status.  No TLS state is consulted: the
draft only carries a TODO FIXME remark about it. -/
def untrustedOnAUTH (srv : SmtpServer) (textstring : String)
    (d : HostDecision) : SmtpServer × List SmtpEvt :=
  let m := pySplitOnceSpace textstring
  let mechanism := upperStr m.1
  let extra := m.2.getD ""
  if mechanism = "PLAIN" then
    resolveStatus
      { srv with state := SmtpStateTag.authPending AuthMech.plain none }
      (plainFirstLine extra) d
  else if mechanism = "LOGIN" then
    resolveStatus
      { srv with state := SmtpStateTag.authPending AuthMech.login none }
      (loginFirstLine extra) d
  else
    (srv,
     [SmtpEvt.reply 504 ("Unrecognized authentication mechanism: " ++ mechanism)])

/-- C5: in the draft smtp_proto.py an AUTH command naming PLAIN or LOGIN
is never refused for a missing TLS layer: the server installs the pending
mechanism state and answers the 334 challenge (empty for PLAIN, base64 of
Username and colon for LOGIN) instead of 535 SSL/TLS connection required,
so the challenge exchange is entered. -/
theorem auth_outside_tls_enters_mechanism :
    untrustedOnAUTH (smtpInit "milliways.local") "PLAIN" HostDecision.accept
        = ({ smtpInit "milliways.local" with
              state := SmtpStateTag.authPending AuthMech.plain none },
           [SmtpEvt.reply 334 ""])
      ∧ untrustedOnAUTH (smtpInit "milliways.local") "LOGIN" HostDecision.accept
          = ({ smtpInit "milliways.local" with
                state := SmtpStateTag.authPending AuthMech.login none },
             [SmtpEvt.reply 334 "VXNlcm5hbWU6"])
      ∧ SmtpEvt.reply 334 "" ≠ SmtpEvt.reply 535 "SSL/TLS connection required"
      ∧ SmtpStateTag.authPending AuthMech.plain none ≠ SmtpStateTag.untrusted := by
  refine ⟨by decide, by decide, by decide, by decide⟩

/-- C6: in the draft smtp_proto.py a successful server-side STARTTLS (the
request accepted and StartTlsBeginEvent emitted) leaves client_hostname
untouched: after HELO x.example followed by an accepted STARTTLS the field
still holds x.example, not its initial empty value. -/
theorem starttls_keeps_client_hostname :
    (on_HELO (smtpInit "milliways.local") "x.example").1.client_hostname
        = "x.example"
      ∧ on_starttls (on_HELO (smtpInit "milliways.local") "x.example").1
            HostDecision.accept
          = ((on_HELO (smtpInit "milliways.local") "x.example").1,
             [SmtpEvt.startTlsRequested, SmtpEvt.startTlsBegin])
      ∧ ("x.example" : String) ≠ "" := by
  refine ⟨by decide, by decide, by decide⟩

/-- C7: the draft SMTP servers reply 250 OK to QUIT (not 221) and then
raise Closed. -/
theorem quit_replies_250 :
    on_QUIT (smtpInit "milliways.local") = ([SmtpEvt.reply 250 "OK"], true)
      ∧ SmtpEvt.reply 250 "OK" ≠ SmtpEvt.reply 221 "Closing connection" := by
  refine ⟨rfl, by decide⟩

/-- C8: AcceptRejectEvent.reject always records refusal; an override code
is honoured exactly when it lies in 400 to 599 and an override message
exactly when it is free of CR and LF, the class defaults being kept
otherwise. -/
theorem reject_override_rules (ec : Int) (em : String)
    (c : Option Int) (m : Option String) :
    (rejectResolve ec em c m).1 = false
      ∧ (c = none → (rejectResolve ec em c m).2.1 = ec)
      ∧ (∀ c0, c = some c0 → (c0 < 400 ∨ 599 < c0) →
          (rejectResolve ec em c m).2.1 = ec)
      ∧ (∀ c0, c = some c0 → 400 ≤ c0 → c0 ≤ 599 →
          (rejectResolve ec em c m).2.1 = c0)
      ∧ (m = none → (rejectResolve ec em c m).2.2 = em)
      ∧ (∀ m0, m = some m0 → hasEol m0 = true →
          (rejectResolve ec em c m).2.2 = em)
      ∧ (∀ m0, m = some m0 → hasEol m0 = false →
          (rejectResolve ec em c m).2.2 = m0) := by
  refine ⟨rfl, ?_, ?_, ?_, ?_, ?_, ?_⟩
  · intro hc
    subst hc
    rfl
  · intro c0 hc hbad
    subst hc
    simp [rejectResolve, hbad]
  · intro c0 hc h1 h2
    subst hc
    have : ¬(c0 < 400 ∨ 599 < c0) := by omega
    simp [rejectResolve, this]
  · intro hm
    subst hm
    rfl
  · intro m0 hm heol
    subst hm
    simp [rejectResolve, heol]
  · intro m0 hm heol
    subst hm
    simp [rejectResolve, heol]

/-- Witness for reject_override_rules: an out-of-range code override 250
is ignored while a clean message override is installed, on the AuthEvent
defaults 535 Authentication failed. -/
theorem reject_override_rules_witness :
    (rejectResolve 535 "Authentication failed" (some 250) (some "no")).2.1
        = 535
      ∧ (rejectResolve 535 "Authentication failed"
          (some 250) (some "no")).2.2 = "no" := by
  constructor
  · exact (reject_override_rules 535 "Authentication failed"
      (some 250) (some "no")).2.2.1 250 rfl (by decide)
  · exact (reject_override_rules 535 "Authentication failed"
      (some 250) (some "no")).2.2.2.2.2.2 "no" rfl (by decide)

/-- C10: MAIL FROM acceptance is atomic on the server state: the reply
list carries the MailFromEvent and exactly one single-line reply with the
resolved code and message, rcpt_to, data, state and client_hostname are
untouched, and mail_from is assigned the parsed address exactly when the
event is accepted. -/
theorem on_mail_from_frame (srv : SmtpServer) (addr : String)
    (d : HostDecision) :
    (on_mail_from srv addr d).1.rcpt_to = srv.rcpt_to
      ∧ (on_mail_from srv addr d).1.data = srv.data
      ∧ (on_mail_from srv addr d).1.state = srv.state
      ∧ (on_mail_from srv addr d).1.client_hostname = srv.client_hostname
      ∧ (on_mail_from srv addr d).1.mail_from
          = (if (mailFromResolve d).1 = true then addr else srv.mail_from)
      ∧ (on_mail_from srv addr d).2
          = [SmtpEvt.mailFromEvt addr,
             SmtpEvt.reply (mailFromResolve d).2.1 (mailFromResolve d).2.2] := by
  cases d with
  | accept =>
    refine ⟨rfl, rfl, rfl, rfl, ?_, rfl⟩
    simp [on_mail_from, mailFromResolve, resolveAcceptReject]
  | reject c m =>
    refine ⟨?_, ?_, ?_, ?_, ?_, ?_⟩ <;>
      simp [on_mail_from, mailFromResolve, resolveAcceptReject, rejectResolve]
